import Mathlib

/-!
Verification of the Garden-Overseer stock bot (`src/bot.py`) against its
natural-language specification.  The Python source is shallowly embedded:
pure helpers become Lean functions, the mutable bot state (`bot.last_snapshot`,
`bot.known_items`, `bot.subscriptions`) becomes explicit state passing, and
the coroutine control flow of one poll cycle becomes a function from the
scrape outcome to the emitted messages and the next state.
-/

set_option maxRecDepth 4000

namespace Garden

/-- An inventory item: `(name, quantityLabel)`, as produced by the scraper. -/
abbrev Item := String × String

/-- A categorized inventory: category name to ordered item list.  Embeds the
Python `dict` / `defaultdict(list)` as an association list in insertion
order (Python dicts preserve insertion order). -/
abbrev Snapshot := List (String × List Item)

/-- The stock mapping returned by one successful scrape (same shape). -/
abbrev Stock := List (String × List Item)

/-- Subscription table: user id to the ordered list of wanted item names
(`bot.subscriptions`). -/
abbrev Subs := List (String × List String)

/-! ## Wall-clock model and `calculate_next_scrape_time` (bot.py lines 88-110)

`datetime` values are embedded as a record of ordinal day, hour, minute,
second and microsecond; `datetime.replace` keeps every field it is not given,
in particular the day. -/

/-- A wall-clock instant: ordinal day plus time-of-day fields, mirroring the
`datetime` fields the function reads and writes. -/
structure DT where
  day : Nat
  hour : Nat
  minute : Nat
  second : Nat
  micro : Nat
deriving DecidableEq, Repr

/-- Total microseconds since day 0, for comparing instants. -/
def DT.toMicros (d : DT) : Nat :=
  (((d.day * 24 + d.hour) * 60 + d.minute) * 60 + d.second) * 1000000 + d.micro

/-- Embedding of `calculate_next_scrape_time` (bot.py lines 88-110): computes
the target minute `(m / 5) * 5 + 1`, bumps it by 5 when not strictly ahead,
rolls minute 60+ into the next hour (hour 24 becomes 0), and builds the
result with `now.replace(hour=.., minute=.., second=0, microsecond=0)` —
which keeps `now`'s day. -/
def calculate_next_scrape_time (now : DT) : DT :=
  let current_minute := now.minute
  let t0 := (current_minute / 5) * 5 + 1
  let target_minute := if t0 ≤ current_minute then t0 + 5 else t0
  if 60 ≤ target_minute then
    let next_hour := if now.hour + 1 = 24 then 0 else now.hour + 1
    { day := now.day, hour := next_hour, minute := target_minute - 60
      second := 0, micro := 0 }
  else
    { day := now.day, hour := now.hour, minute := target_minute
      second := 0, micro := 0 }

/-! ## Snapshot dictionary operations

`bot.last_snapshot` is a Python `dict`; assignment `d[k] = v` replaces the
value of an existing key in place (keeping its position) or appends a new
key at the end.  `d.get(k, [])` looks the key up with a default. -/

/-- Python `d.get(cat, [])` on a snapshot dictionary. -/
def lookupD (snap : Snapshot) (cat : String) : List Item :=
  (snap.lookup cat).getD []

/-- Python `d[cat] = items` on a snapshot dictionary: replace the first entry with
this key in place, or append the key at the end. -/
def setCat : Snapshot → String → List Item → Snapshot
  | [], cat, items => [(cat, items)]
  | e :: r, cat, items =>
    if e.1 = cat then (cat, items) :: r else e :: setCat r cat items

/-! ## `build_embed` (bot.py lines 207-231)

For each category of the fresh stock, the function adds an embed field,
decides whether the category triggers mention evaluation (always for the
three hardcoded stock kinds, otherwise when the item list differs from the
one stored in `bot.last_snapshot`), collects `(item name, "<@uid>")` mention
entries (the `defaultdict(list)` of the source is flattened to the ordered
list of append events, which determines it exactly), and finally stores the
category's fresh list back into `bot.last_snapshot`, one key at a time. -/

/-- Result of `build_embed`: the embed fields, the flat list of mention
append events `(item name, mention string)` in order, and the state of
`bot.last_snapshot` after the call. -/
structure EmbedOut where
  fields : List (String × String)
  mentions : List (String × String)
  snap : Snapshot
deriving DecidableEq, Repr

/-- Python `str.lower()` on the (ASCII) item and user strings, embedded as
the character-wise lowercase map.  (`String.toLower` performs the same map
but via byte-position recursion, which the kernel cannot evaluate.) -/
def strLower (s : String) : String := String.mk (s.data.map Char.toLower)

/-- Python `str.strip()`: drop leading and trailing whitespace, embedded
over the character list (`String.trim` does the same but via byte-position
recursion, which the kernel cannot evaluate). -/
def strTrim (s : String) : String :=
  String.mk (((s.data.dropWhile (fun c => c.isWhitespace)).reverse.dropWhile
    (fun c => c.isWhitespace)).reverse)

/-- The mention entries one item occurrence contributes: every subscriber
whose list contains the item name case-insensitively, in table order. -/
def evalOne (it : Item) (subs : Subs) : List (String × String) :=
  subs.filterMap (fun u =>
    if (u.2.map strLower).contains (strLower it.1) then
      some (it.1, "<@" ++ u.1 ++ ">")
    else none)

/-- The mention entries one category's item list contributes when it is
evaluated: for every item occurrence in order, every subscriber whose list
contains the item name case-insensitively. -/
def evalCat (subs : Subs) (items : List Item) : List (String × String) :=
  items.flatMap (fun it => evalOne it subs)

/-- The embed field text for one category: the joined `name: qty` lines, or
`"No items"` when the list is empty (the `or "No items"` of the source). -/
def catDesc (items : List Item) : String :=
  if items = [] then "No items"
  else String.intercalate "\n" (items.map (fun p => p.1 ++ ": " ++ p.2))

/-- Whether a category is in the hardcoded always-notify tuple
`("GEAR STOCK", "SEEDS STOCK", "EGGS STOCK")`. -/
def alwaysNotify (cat : String) : Prop :=
  cat = "GEAR STOCK" ∨ cat = "SEEDS STOCK" ∨ cat = "EGGS STOCK"

instance (cat : String) : Decidable (alwaysNotify cat) := by
  unfold alwaysNotify; infer_instance

/-- One iteration of the `for cat, items in stock.items()` loop of
`build_embed`. -/
def buildEmbedStep (subs : Subs) (out : EmbedOut) (e : String × List Item) :
    EmbedOut :=
  let prev := lookupD out.snap e.1
  { fields := out.fields ++ [(e.1, catDesc e.2)]
    mentions :=
      if alwaysNotify e.1 ∨ prev ≠ e.2 then out.mentions ++ evalCat subs e.2
      else out.mentions
    snap := setCat out.snap e.1 e.2 }

/-- The loop of `build_embed`, written recursively for easy induction. -/
def buildEmbedGo (subs : Subs) (out : EmbedOut) : Stock → EmbedOut
  | [] => out
  | e :: rest => buildEmbedGo subs (buildEmbedStep subs out e) rest

/-- Embedding of `build_embed` (bot.py lines 207-231): `snap0` is
`bot.last_snapshot` on entry, `stock` the fresh scrape result. -/
def build_embed (subs : Subs) (snap0 : Snapshot) (stock : Stock) : EmbedOut :=
  buildEmbedGo subs { fields := [], mentions := [], snap := snap0 } stock

/-! ## `scrape_with_retries` (bot.py lines 192-205)

The sequence of `scrape_garden_stock()` results is embedded as a function
from the (1-based) attempt number to the `(stock, err)` pair that attempt
returns; success is `stock is not None`.  The trace records the returned
pair, the number of attempts made, and the list of the sleeps performed
(one entry of `delay` seconds per inter-attempt wait). -/

/-- The observable outcome of `scrape_with_retries`. -/
structure RetryOut where
  stock : Option Stock
  error : Option String
  attemptsMade : Nat
  sleeps : List Nat
deriving DecidableEq, Repr

/-- The `while` loop, by recursion on the remaining
attempt budget; `done` attempts have already failed, `err` is the last error
seen and `sl` the sleeps performed so far. -/
def retryGo (outc : Nat → Option Stock × Option String) (delay : Nat) :
    Nat → Nat → Option String → List Nat → RetryOut
  | 0, done, err, sl => { stock := none, error := err, attemptsMade := done, sleeps := sl }
  | r + 1, done, _err, sl =>
    let a := done + 1
    match (outc a).1 with
    | some s => { stock := some s, error := none, attemptsMade := a, sleeps := sl }
    | none =>
      if r = 0 then
        { stock := none, error := (outc a).2, attemptsMade := a, sleeps := sl }
      else retryGo outc delay r a ((outc a).2) (sl ++ [delay])

/-- Embedding of `scrape_with_retries(max_attempts, delay)`: attempt numbers
start at 1; `error` starts as `None`. -/
def scrape_with_retries (outc : Nat → Option Stock × Option String)
    (maxAttempts delay : Nat) : RetryOut :=
  retryGo outc delay maxAttempts 0 none []

/-! ## One poll cycle's outcome processing (bot.py lines 258-287)

After `scrape_with_retries` returns and the `#growagarden` channel has been
resolved, the loop either reports the exhausted failure (tagging the owner)
without touching any snapshot state, or rebuilds `bot.known_items`, runs
`build_embed`, sends the mention digest (when nonempty) and then the embed. -/

/-- A message sent to the channel: plain text or the structured embed
(summarized by its fields). -/
inductive OutMsg where
  | text (s : String)
  | embed (fields : List (String × String))
deriving DecidableEq, Repr

/-- The snapshot state the cycle may mutate: `bot.last_snapshot` and
`bot.known_items`. -/
structure PollSt where
  lastSnapshot : Snapshot
  knownItems : List String
deriving DecidableEq, Repr

/-- The expression `f"<@{OWNER_ID}>" if OWNER_ID else "@jaymaca"` (bot.py line 268). -/
def owner_mention (ownerId : String) : String :=
  if ownerId = "" then "@jaymaca" else "<@" ++ ownerId ++ ">"

/-- Order-preserving deduplication; embeds the Python `set` of known item
names by its membership (the only way the set is consumed). -/
def dedupKeys (l : List String) : List String :=
  l.foldl (fun acc k => if acc.contains k then acc else acc ++ [k]) []

/-- The alert message lines: one line per mention key in first-append
order, `"item: <@u1> <@u2> ..."`, mirroring iteration over the
`defaultdict(list)` built by `build_embed`. -/
def mention_lines (ms : List (String × String)) : List String :=
  (dedupKeys (ms.map Prod.fst)).map (fun k =>
    k ++ ": " ++ String.intercalate " " ((ms.filter (fun p => p.1 = k)).map Prod.snd))

/-- Embedding of the body of one poll cycle after the scrape and the channel
lookup (bot.py lines 266-287): from the retry outcome, the messages sent to
the channel in order, and the state afterwards. -/
def process_outcome (ownerId : String) (subs : Subs) (st : PollSt)
    (res : Option Stock × Option String) : List OutMsg × PollSt :=
  match res.1 with
  | none =>
    ([OutMsg.text (owner_mention ownerId ++
        " ⚠️ **CRITICAL ERROR**\nAll scrape attempts failed! Last error: " ++
        res.2.getD "None")], st)
  | some stock =>
    let known := dedupKeys (stock.flatMap (fun e => e.2.map Prod.fst))
    let out := build_embed subs st.lastSnapshot stock
    let alerts := mention_lines out.mentions
    let msgs :=
      (if alerts = [] then [] else [OutMsg.text (String.intercalate "\n" alerts)]) ++
        [OutMsg.embed out.fields]
    (msgs, { lastSnapshot := out.snap, knownItems := known })

/-! ## The parse phase of `scrape_garden_stock` (bot.py lines 140-190)

The HTML library is external; the document is embedded abstractly as what
the extraction code observes of it: the optional `SEEDS STOCK` heading with
its optional sibling list, the headings matched by the generic
`h2.text-xl.font-bold.mb-2.text-center` selector (each with its text and
optional sibling list), and the optional `EGGS STOCK` heading likewise.
A list entry is what a `li.bg-gray-900` element carries: optionally an
`img` tag (which in turn optionally carries an `alt` attribute) and
optionally a `span.text-gray-400` text.  The two levels matter: the seeds
and eggs passes read the alt with `img.get("alt", "")`, while the generic
pass reads `img["alt"]`, which raises `KeyError` when the attribute is
missing. -/

/-- One `li.bg-gray-900` list entry: `img = some alt?` when an `img` tag is
present (`alt?` being its optional `alt` attribute value), and the span
text when a `span.text-gray-400` is present. -/
structure Entry where
  img : Option (Option String)
  spanText : Option String
deriving DecidableEq, Repr

/-- An abstract raw document, as observed by the three extraction passes. -/
structure Doc where
  seeds : Option (Option (List Entry))
  generic : List (String × Option (List Entry))
  eggs : Option (Option (List Entry))
deriving DecidableEq, Repr

/-- Python `data[cat].append(it)` on a `defaultdict(list)`: extend the existing
key's list, or create the key (at the end) with a singleton. -/
def dictAppend : Snapshot → String → Item → Snapshot
  | [], cat, it => [(cat, [it])]
  | e :: r, cat, it =>
    if e.1 = cat then (e.1, e.2 ++ [it]) :: r else e :: dictAppend r cat it

/-- Appending every item of a category in order (`data[cat].append` per
item; no key is created when there are no items). -/
def appendItems (snap : Snapshot) (cat : String) (items : List Item) : Snapshot :=
  items.foldl (fun s it => dictAppend s cat it) snap

/-- The items one entry list yields in the seeds and eggs passes: an entry
contributes `(img.get("alt", "").strip(), qty)` exactly when it has both
the `img` tag and the `span`; all other entries are skipped.  A missing
`alt` attribute defaults to the empty string. -/
def entryItemsGet (es : List Entry) : List Item :=
  es.filterMap (fun e =>
    match e.img, e.spanText with
    | some alt, some q => some (strTrim (alt.getD ""), q)
    | _, _ => none)

/-- The items one entry list yields in the generic pass: as in the seeds
pass, but the alt is read with `img["alt"]`, so an entry that has the `img`
tag and the `span` but no `alt` attribute raises `KeyError("alt")` —
`str` of which is `'alt'` — aborting the whole extraction. -/
def entryItemsStrict : List Entry → Except String (List Item)
  | [] => Except.ok []
  | e :: r =>
    match e.img, e.spanText with
    | some alt, some q =>
      match alt with
      | some a =>
        match entryItemsStrict r with
        | Except.ok rest => Except.ok ((strTrim a, q) :: rest)
        | Except.error err => Except.error err
      | none => Except.error "\x27alt\x27"
    | _, _ => entryItemsStrict r

/-- The generic-selector loop: skip the `"SEEDS STOCK"` heading and
headings with no sibling list; extract every other category strictly, and
let the `KeyError` abort the loop. -/
def genericPass : List (String × Option (List Entry)) → Snapshot →
    Except String Snapshot
  | [], data => Except.ok data
  | g :: r, data =>
    if g.1 = "SEEDS STOCK" then genericPass r data
    else
      match g.2 with
      | none => genericPass r data
      | some es =>
        match entryItemsStrict es with
        | Except.ok items => genericPass r (appendItems data g.1 items)
        | Except.error err => Except.error err

/-- Embedding of the parse phase of `scrape_garden_stock` (bot.py lines
140-190): the seeds pass (with `get`-style alt access), then the
generic-selector pass (whose `img["alt"]` access can raise), then the eggs
pass.  The surrounding `try`/`except` turns a raised exception into
`(None, f"Parse error: {e}")`, discarding everything extracted so far;
otherwise the extracted mapping is returned with no error. -/
def scrape_parse (d : Doc) : Option Snapshot × Option String :=
  let data : Snapshot := []
  let data :=
    match d.seeds with
    | some (some es) => appendItems data "SEEDS STOCK" (entryItemsGet es)
    | _ => data
  match genericPass d.generic data with
  | Except.error err => (none, some ("Parse error: " ++ err))
  | Except.ok data2 =>
    match d.eggs with
    | some (some es) =>
      (some (appendItems data2 "EGGS STOCK" (entryItemsGet es)), none)
    | _ => (some data2, none)

/-! ## Similarity ratio and `difflib.get_close_matches`

`subscribe` calls `difflib.get_close_matches(want, known, n=1, cutoff=0.6)`.
The stdlib matcher's score is `2*M/T`, where `T` is the total length of the
two strings and `M` the total size of the Ratcliff-Obershelp matching
blocks: take the longest common substring (earliest start in `a`, then in
`b`, among the longest), then recurse on the pieces to its left and to its
right.  (The autojunk heuristic only activates on strings of 200+
characters and is not modelled; the float score is represented exactly as a
rational, which orders the realistic scores identically.)  The library's
`real_quick_ratio`/`quick_ratio` pre-filters are upper bounds of the ratio,
so filtering by them and the ratio equals filtering by the ratio. -/

/-- The length of the common prefix of two character lists. -/
def commonPrefixLen : List Char → List Char → Nat
  | a :: as, b :: bs => if a = b then commonPrefixLen as bs + 1 else 0
  | _, _ => 0

/-- CPython `find_longest_match` over whole sequences: the `(i, j, k)` with the
largest `k` such that `a[i:i+k] = b[j:j+k]`, ties resolved to the smallest
`i` and then the smallest `j`. -/
def bestMatchBlock (a b : List Char) : Nat × Nat × Nat :=
  (List.range a.length).foldl (fun best i =>
    (List.range b.length).foldl (fun best j =>
      let k := commonPrefixLen (a.drop i) (b.drop j)
      if best.2.2 < k then (i, j, k) else best) best) (0, 0, 0)

/-- Total size of the matching blocks, with a recursion-depth budget; each
recursive call strictly shrinks the pieces, so `|a| + |b| + 1` budget always
suffices. -/
def totalMatchesF : Nat → List Char → List Char → Nat
  | 0, _, _ => 0
  | fuel + 1, a, b =>
    let m := bestMatchBlock a b
    let i := m.1
    let j := m.2.1
    let k := m.2.2
    if k = 0 then 0
    else
      k + totalMatchesF fuel (a.take i) (b.take j) +
        totalMatchesF fuel (a.drop (i + k)) (b.drop (j + k))

/-- Total size of the Ratcliff-Obershelp matching blocks of two strings. -/
def totalMatches (a b : List Char) : Nat :=
  totalMatchesF (a.length + b.length + 1) a b

/-- The score `SequenceMatcher(None, x, word).ratio()` as an exact rational:
`2*M/T`, and 1 when both strings are empty. -/
def simScore (x word : String) : ℚ :=
  let m := totalMatches x.data word.data
  let t := x.data.length + word.data.length
  if t = 0 then mkRat 1 1 else mkRat (2 * m) t

/-- The comparison `_nlargest` performs on scored candidates: the pair
`(score, string)` that is larger lexicographically wins. -/
def pickBetter (word best x : String) : String :=
  if simScore best word < simScore x word ∨
      (simScore best word = simScore x word ∧ best.data < x.data) then x
  else best

/-- Embedding of `get_close_matches(word, poss, n=1, cutoff)`: keep the candidates whose
score reaches the cutoff and return the largest `(score, string)` pair, or
nothing.  (`possibilities` is `bot.known_items`, a set; the list order is
the set's iteration order, which the result does not depend on.) -/
def bestCandidate (word : String) (poss : List String) (cutoff : ℚ) :
    Option String :=
  match poss.filter (fun x => decide (cutoff ≤ simScore x word)) with
  | [] => none
  | c :: cs => some (cs.foldl (pickBetter word) c)

/-! ## `subscribe` (bot.py lines 356-384) -/

/-- The fuzzy-resolution step of `subscribe` for one stripped want-string:
when `bot.known_items` is nonempty, replace the input by the close match if
one reaches the 0.6 cutoff, otherwise keep it and flag "no close match";
when the known set is empty the input is kept with no flag. -/
def subscribeItem (known : List String) (want : String) : String × Bool :=
  if known = [] then (want, false)
  else
    match bestCandidate want known (mkRat 3 5) with
    | some m => (m, false)
    | none => (want, true)

/-- The warnings `subscribe` can accumulate for one raw token. -/
inductive Warn where
  | noCloseMatch (raw : String)
  | alreadySubscribed (item : String)
deriving DecidableEq, Repr

/-- One iteration of the `for raw in items.split(",")` loop of `subscribe`:
state is `(subs list of the user, chosen, warn)`.  Empty stripped tokens are
skipped; fuzzy resolution happens first; then the case-insensitive
already-subscribed check decides between warning and appending. -/
def subStep (known : List String) (st : List String × List String × List Warn)
    (raw : String) : List String × List String × List Warn :=
  let want := strTrim raw
  if want = "" then st
  else
    let r := subscribeItem known want
    let warns := if r.2 then st.2.2 ++ [Warn.noCloseMatch raw] else st.2.2
    if st.1.any (fun i => strLower i = strLower r.1) then
      (st.1, st.2.1, warns ++ [Warn.alreadySubscribed r.1])
    else
      (st.1 ++ [r.1], st.2.1 ++ [r.1], warns)

/-- The whole loop of `subscribe` over the split raw tokens, starting from
the user's current subscription list. -/
def subscribeCmd (known : List String) (subs0 : List String)
    (raws : List String) : List String × List String × List Warn :=
  raws.foldl (subStep known) (subs0, [], [])

/-! ## Dictionary lemmas -/

theorem lookupD_nil (c : String) : lookupD [] c = [] := rfl

theorem lookupD_cons (k : String) (v : List Item) (r : Snapshot) (c : String) :
    lookupD ((k, v) :: r) c = if c = k then v else lookupD r c := by
  simp only [lookupD, List.lookup]
  by_cases h : c = k
  · simp [h]
  · have hb : (c == k) = false := by simp [h]
    simp [hb, h]

theorem lookupD_setCat (s : Snapshot) (cat : String) (items : List Item)
    (c : String) :
    lookupD (setCat s cat items) c = if c = cat then items else lookupD s c := by
  induction s with
  | nil =>
    by_cases h : c = cat <;> simp [setCat, lookupD_cons, lookupD_nil, h]
  | cons e r ih =>
    obtain ⟨k, v⟩ := e
    by_cases he : k = cat
    · subst he
      by_cases hc : c = k <;> simp [setCat, lookupD_cons, hc]
    · by_cases hc : c = cat
      · subst hc
        have hck : ¬c = k := fun h => he h.symm
        simp [setCat, he, lookupD_cons, hck, ih]
      · by_cases hck : c = k <;> simp [setCat, he, lookupD_cons, hck, ih, hc]

/-- The snapshot lookup after the `build_embed` loop: categories of the
fresh stock read their fresh value, all others keep their old one. -/
theorem buildEmbedGo_snap_lookup (subs : Subs) :
    ∀ (stock : Stock) (out : EmbedOut) (cat : String),
      (stock.map Prod.fst).Nodup →
      lookupD (buildEmbedGo subs out stock).snap cat =
        if cat ∈ stock.map Prod.fst then lookupD stock cat
        else lookupD out.snap cat := by
  intro stock
  induction stock with
  | nil => intro out cat _; simp [buildEmbedGo]
  | cons e r ih =>
    intro out cat hnd
    have hnd' : (r.map Prod.fst).Nodup := (List.nodup_cons.mp hnd).2
    have he1 : e.1 ∉ r.map Prod.fst := (List.nodup_cons.mp hnd).1
    have hstep := ih (buildEmbedStep subs out e) cat hnd'
    simp only [buildEmbedGo] at *
    rw [hstep]
    by_cases hmem : cat ∈ r.map Prod.fst
    · have hne : cat ≠ e.1 := fun hcc => he1 (hcc ▸ hmem)
      have : cat ∈ (e :: r).map Prod.fst := by simp [hmem]
      rw [if_pos hmem, if_pos this]
      cases e with
      | mk k v => rw [lookupD_cons, if_neg hne]
    · by_cases hcc : cat = e.1
      · have hout : lookupD (buildEmbedStep subs out e).snap cat = e.2 := by
          simp [buildEmbedStep, lookupD_setCat, hcc]
        have : cat ∈ (e :: r).map Prod.fst := by simp [hcc]
        rw [if_neg hmem, hout, if_pos this]
        cases e with
        | mk k v => rw [lookupD_cons, if_pos hcc]
      · have hout : lookupD (buildEmbedStep subs out e).snap cat =
            lookupD out.snap cat := by
          simp [buildEmbedStep, lookupD_setCat, hcc]
        have : cat ∉ (e :: r).map Prod.fst := by simp [hcc, hmem]
        rw [if_neg hmem, hout, if_neg this]

/-- The mention entries after the `build_embed` loop: with the categories of
the fresh stock pairwise distinct (as Python dict keys are), each category
contributes its evaluation exactly when it is always-notify or differs from
its entry in the snapshot held at loop entry. -/
theorem buildEmbedGo_mentions (subs : Subs) (prev : Snapshot) :
    ∀ (stock : Stock) (out : EmbedOut),
      (stock.map Prod.fst).Nodup →
      (∀ c ∈ stock.map Prod.fst, lookupD out.snap c = lookupD prev c) →
      (buildEmbedGo subs out stock).mentions =
        out.mentions ++ stock.flatMap (fun e =>
          if alwaysNotify e.1 ∨ lookupD prev e.1 ≠ e.2 then evalCat subs e.2
          else []) := by
  intro stock
  induction stock with
  | nil => intro out _ _; simp [buildEmbedGo]
  | cons e r ih =>
    intro out hnd hlk
    have hnd' : (r.map Prod.fst).Nodup := (List.nodup_cons.mp hnd).2
    have he1 : e.1 ∉ r.map Prod.fst := (List.nodup_cons.mp hnd).1
    have hPrevE : lookupD out.snap e.1 = lookupD prev e.1 := hlk e.1 (by simp)
    have hlk' : ∀ c ∈ r.map Prod.fst,
        lookupD (buildEmbedStep subs out e).snap c = lookupD prev c := by
      intro c hc
      have hne : ¬c = e.1 := fun h => he1 (h ▸ hc)
      calc lookupD (buildEmbedStep subs out e).snap c
          = lookupD (setCat out.snap e.1 e.2) c := rfl
        _ = lookupD out.snap c := by rw [lookupD_setCat, if_neg hne]
        _ = lookupD prev c := hlk c (by simp [hc])
    have hstep : (buildEmbedStep subs out e).mentions =
        out.mentions ++
          (if alwaysNotify e.1 ∨ lookupD prev e.1 ≠ e.2 then evalCat subs e.2
           else []) := by
      simp only [buildEmbedStep, hPrevE]
      by_cases hg : alwaysNotify e.1 ∨ lookupD prev e.1 ≠ e.2
      · rw [if_pos hg, if_pos hg]
      · rw [if_neg hg, if_neg hg, List.append_nil]
    show (buildEmbedGo subs (buildEmbedStep subs out e) r).mentions = _
    rw [ih (buildEmbedStep subs out e) hnd' hlk', hstep, List.flatMap_cons,
      List.append_assoc]

/-! ## Claim theorems -/

/-- Claim C1 (code_bug): the scheduler's next aligned time is claimed to be
strictly after the input, rolling from hour 23 to minute 1 of hour 0 of the
NEXT day; but `now.replace(...)` keeps the date, so at 23:59:00 the code
returns 00:01:00 of the SAME day, which is strictly before the input. -/
theorem next_scrape_time_day_rollover_bug :
    calculate_next_scrape_time ⟨0, 23, 59, 0, 0⟩ = ⟨0, 0, 1, 0, 0⟩ ∧
    (calculate_next_scrape_time ⟨0, 23, 59, 0, 0⟩).toMicros <
      (DT.mk 0 23 59 0 0).toMicros := by
  decide

/-- Claim C7: on exhausted scrape failure the cycle sends exactly one
channel message — the critical-error text tagging the configured owner, or
the `@jaymaca` fallback when no owner is configured — and leaves
`bot.last_snapshot` and `bot.known_items` untouched. -/
theorem poll_failure_preserves_state (ownerId : String) (subs : Subs)
    (st : PollSt) (e : String) :
    process_outcome ownerId subs st (none, some e) =
      ([OutMsg.text ((if ownerId = "" then "@jaymaca"
          else "<@" ++ ownerId ++ ">") ++
        " ⚠️ **CRITICAL ERROR**\nAll scrape attempts failed! Last error: " ++ e)],
        st) := by
  rfl

/-- Claim C2 is false on the code: `build_embed` writes the fresh categories
into `bot.last_snapshot` one key at a time and never removes the others, so
after a poll whose snapshot lacks category `"X"`, the retained snapshot
still contains `"X"` and does not equal the new snapshot. -/
theorem build_embed_snapshot_replacement_cex :
    (build_embed [] [("X", [("a", "1")])] [("Y", [])]).snap ≠ [("Y", [])] ∧
    lookupD (build_embed [] [("X", [("a", "1")])] [("Y", [])]).snap "X" =
      [("a", "1")] := by
  decide

/-- Claim C2 amended: the retained snapshot is updated per category — every
category of the new snapshot gets its fresh item list, and categories absent
from the new snapshot keep their previous entries (merge, not wholesale
replacement). -/
theorem build_embed_snapshot_merge (subs : Subs) (snap0 : Snapshot)
    (stock : Stock) (h : (stock.map Prod.fst).Nodup) (cat : String) :
    lookupD (build_embed subs snap0 stock).snap cat =
      if cat ∈ stock.map Prod.fst then lookupD stock cat
      else lookupD snap0 cat :=
  buildEmbedGo_snap_lookup subs stock _ cat h

theorem build_embed_snapshot_merge_witness :
    lookupD (build_embed [] [("X", [("a", "1")])] [("Y", [])]).snap "X" =
      [("a", "1")] ∧
    lookupD (build_embed [] [("X", [("a", "1")])] [("Y", [])]).snap "Y" = [] := by
  have h1 := build_embed_snapshot_merge [] [("X", [("a", "1")])] [("Y", [])]
    (by decide) "X"
  have h2 := build_embed_snapshot_merge [] [("X", [("a", "1")])] [("Y", [])]
    (by decide) "Y"
  rw [h1, h2]
  decide

/-- Claim C3: in one diff/notify cycle every category of the new snapshot
contributes mention evaluations of all its items exactly when it is one of
the three always-notify categories or its item list differs (ordered list
equality) from the same category's list in the previous snapshot — a
category absent from the previous snapshot compares against `[]` and so
counts as changed whenever it has items. -/
theorem build_embed_diff_policy (subs : Subs) (prev : Snapshot) (stock : Stock)
    (h : (stock.map Prod.fst).Nodup) :
    (build_embed subs prev stock).mentions =
      stock.flatMap (fun e =>
        if alwaysNotify e.1 ∨ lookupD prev e.1 ≠ e.2 then evalCat subs e.2
        else []) := by
  have hbase := buildEmbedGo_mentions subs prev stock
    { fields := [], mentions := [], snap := prev } h (fun c _ => rfl)
  simpa using hbase

theorem build_embed_diff_policy_witness :
    (build_embed [("u", ["apple"])] [("A", [("apple", "5")])]
        [("A", [("apple", "5")]), ("SEEDS STOCK", [("apple", "3")])]).mentions =
      ([("A", [("apple", "5")]), ("SEEDS STOCK", [("apple", "3")])] :
          Stock).flatMap (fun e =>
        if alwaysNotify e.1 ∨
            lookupD [("A", [("apple", "5")])] e.1 ≠ e.2 then
          evalCat [("u", ["apple"])] e.2
        else []) :=
  build_embed_diff_policy [("u", ["apple"])] [("A", [("apple", "5")])]
    [("A", [("apple", "5")]), ("SEEDS STOCK", [("apple", "3")])] (by decide)

/-! ## Counting mention entries (for the dedup question) -/

theorem mention_inj {u v : String}
    (h : ("<@" ++ u ++ ">" : String) = "<@" ++ v ++ ">") : u = v := by
  have hd := congrArg String.data h
  simp only [String.data_append] at hd
  have hd2 := List.append_cancel_right hd
  have hd3 := List.append_cancel_left hd2
  cases u; cases v
  exact congrArg String.mk hd3

theorem count_single {α : Type} [BEq α] (a b : α) :
    List.count a [b] = if b == a then 1 else 0 := by
  simp [List.count_cons]

theorem bool_if_false {α : Type} (a b : α) :
    (if false = true then a else b) = b :=
  if_neg (fun h => Bool.noConfusion h)

theorem evalOne_cons (it : Item) (u : String × List String) (rest : Subs) :
    evalOne it (u :: rest) =
      (if (u.2.map strLower).contains (strLower it.1) then
        [(it.1, "<@" ++ u.1 ++ ">")]
      else []) ++ evalOne it rest := by
  cases hc : (u.2.map strLower).contains (strLower it.1) <;>
    simp only [evalOne, List.filterMap_cons, hc, Bool.false_eq_true, if_false,
      if_true, List.nil_append, List.singleton_append]

theorem evalOne_count_ne (subs : Subs) (it : Item) (name uid : String)
    (h : it.1 ≠ name) :
    (evalOne it subs).count (name, "<@" ++ uid ++ ">") = 0 := by
  induction subs with
  | nil => rfl
  | cons u rest ih =>
    have hb : (((it.1, ("<@" ++ u.1 ++ ">" : String))) ==
        (name, "<@" ++ uid ++ ">")) = false := by
      refine beq_eq_false_iff_ne.mpr ?_
      intro hEq; exact h (congrArg Prod.fst hEq)
    rw [evalOne_cons, List.count_append, ih]
    by_cases hc : (u.2.map strLower).contains (strLower it.1) = true
    · rw [if_pos hc, count_single, hb, bool_if_false]
    · rw [if_neg hc]
      rfl

theorem evalOne_count_absent (subs : Subs) (it : Item) (name uid : String)
    (h : uid ∉ subs.map Prod.fst) :
    (evalOne it subs).count (name, "<@" ++ uid ++ ">") = 0 := by
  induction subs with
  | nil => rfl
  | cons u rest ih =>
    have hu : u.1 ≠ uid := by
      intro hEq; exact h (by simp [hEq])
    have hr : uid ∉ rest.map Prod.fst := fun hm => h (by simp [hm])
    have hb : (((it.1, ("<@" ++ u.1 ++ ">" : String))) ==
        (name, "<@" ++ uid ++ ">")) = false := by
      refine beq_eq_false_iff_ne.mpr ?_
      intro hEq
      exact hu (mention_inj (congrArg Prod.snd hEq))
    rw [evalOne_cons, List.count_append, ih hr]
    by_cases hc : (u.2.map strLower).contains (strLower it.1) = true
    · rw [if_pos hc, count_single, hb, bool_if_false]
    · rw [if_neg hc]
      rfl

theorem evalOne_count (subs : Subs) (it : Item) (name uid : String)
    (uitems : List String)
    (h2 : (subs.map Prod.fst).Nodup) (h3 : (uid, uitems) ∈ subs)
    (h4 : (uitems.map strLower).contains (strLower name) = true) :
    (evalOne it subs).count (name, "<@" ++ uid ++ ">") =
      if it.1 = name then 1 else 0 := by
  by_cases hname : it.1 = name
  · rw [if_pos hname]
    induction subs with
    | nil => cases h3
    | cons u rest ih =>
      have hnd : (rest.map Prod.fst).Nodup := (List.nodup_cons.mp h2).2
      have hhd : u.1 ∉ rest.map Prod.fst := (List.nodup_cons.mp h2).1
      rw [evalOne_cons, List.count_append]
      rcases List.mem_cons.mp h3 with hu | hu
      · have habs : uid ∉ rest.map Prod.fst := by
          rw [← hu] at hhd; exact hhd
        have hc : (u.2.map strLower).contains (strLower it.1) = true := by
          rw [← hu, hname]; exact h4
        have hz := evalOne_count_absent rest it name uid habs
        have heq : ((it.1, ("<@" ++ u.1 ++ ">" : String))) =
            (name, "<@" ++ uid ++ ">") := by
          rw [hname, ← hu]
        rw [if_pos hc, hz, count_single, beq_iff_eq.mpr heq, if_pos rfl]
      · have hu1 : u.1 ≠ uid := by
          intro hEq
          exact hhd (hEq ▸ (List.mem_map.mpr ⟨(uid, uitems), hu, rfl⟩))
        have hb : (((it.1, ("<@" ++ u.1 ++ ">" : String))) ==
            (name, "<@" ++ uid ++ ">")) = false := by
          refine beq_eq_false_iff_ne.mpr ?_
          intro hEq
          exact hu1 (mention_inj (congrArg Prod.snd hEq))
        rw [ih hnd hu]
        by_cases hc : (u.2.map strLower).contains (strLower it.1) = true
        · rw [if_pos hc, count_single, hb, bool_if_false]
        · rw [if_neg hc]
          rfl
  · rw [if_neg hname]
    exact evalOne_count_ne subs it name uid hname

theorem evalCat_count (subs : Subs) (name uid : String) (uitems : List String)
    (h2 : (subs.map Prod.fst).Nodup) (h3 : (uid, uitems) ∈ subs)
    (h4 : (uitems.map strLower).contains (strLower name) = true) :
    ∀ items : List Item,
      (evalCat subs items).count (name, "<@" ++ uid ++ ">") =
        (items.map Prod.fst).count name := by
  intro items
  induction items with
  | nil => rfl
  | cons it rest ih =>
    have hone := evalOne_count subs it name uid uitems h2 h3 h4
    have hstep : evalCat subs (it :: rest) =
        evalOne it subs ++ evalCat subs rest := by
      simp [evalCat]
    rw [hstep, List.count_append, hone, ih, List.map_cons, List.count_cons]
    by_cases hname : it.1 = name
    · have hb : (it.1 == name) = true := beq_iff_eq.mpr hname
      rw [if_pos hname, hb, if_pos rfl]
      omega
    · have hb : (it.1 == name) = false := beq_eq_false_iff_ne.mpr hname
      rw [if_neg hname, hb, bool_if_false]
      omega

theorem guarded_count (subs : Subs) (prev : Snapshot) (name uid : String)
    (uitems : List String)
    (h2 : (subs.map Prod.fst).Nodup) (h3 : (uid, uitems) ∈ subs)
    (h4 : (uitems.map strLower).contains (strLower name) = true) :
    ∀ stock : Stock,
      ((stock.flatMap (fun e =>
          if alwaysNotify e.1 ∨ lookupD prev e.1 ≠ e.2 then evalCat subs e.2
          else [])).count (name, "<@" ++ uid ++ ">")) =
        (stock.flatMap (fun e =>
          if alwaysNotify e.1 ∨ lookupD prev e.1 ≠ e.2 then e.2.map Prod.fst
          else [])).count name := by
  intro stock
  induction stock with
  | nil => rfl
  | cons e r ih =>
    rw [List.flatMap_cons, List.flatMap_cons, List.count_append,
      List.count_append, ih]
    by_cases hg : alwaysNotify e.1 ∨ lookupD prev e.1 ≠ e.2
    · rw [if_pos hg, if_pos hg, evalCat_count subs name uid uitems h2 h3 h4]
    · rw [if_neg hg, if_neg hg, List.count_nil, List.count_nil]

/-- Claim C10: mention lists are not deduplicated — for a subscriber whose
list matches `name` case-insensitively, the number of `(name, mention)`
entries appended in one cycle equals the number of occurrences of `name`
across the categories that underwent mention evaluation. -/
theorem mentions_not_deduplicated (subs : Subs) (prev : Snapshot)
    (stock : Stock) (uid name : String) (uitems : List String)
    (h1 : (stock.map Prod.fst).Nodup)
    (h2 : (subs.map Prod.fst).Nodup)
    (h3 : (uid, uitems) ∈ subs)
    (h4 : (uitems.map strLower).contains (strLower name) = true) :
    ((build_embed subs prev stock).mentions).count (name, "<@" ++ uid ++ ">") =
      (stock.flatMap (fun e =>
        if alwaysNotify e.1 ∨ lookupD prev e.1 ≠ e.2 then e.2.map Prod.fst
        else [])).count name := by
  have hm := buildEmbedGo_mentions subs prev stock
    { fields := [], mentions := [], snap := prev } h1 (fun c _ => rfl)
  have hmm : (build_embed subs prev stock).mentions =
      stock.flatMap (fun e =>
        if alwaysNotify e.1 ∨ lookupD prev e.1 ≠ e.2 then evalCat subs e.2
        else []) := by
    simpa using hm
  rw [hmm]
  exact guarded_count subs prev name uid uitems h2 h3 h4 stock

theorem mentions_not_deduplicated_witness :
    ((build_embed [("u", ["apple"])] []
        [("SEEDS STOCK", [("apple", "5"), ("apple", "3")]),
          ("B", [("apple", "2")])]).mentions).count
        ("apple", "<@" ++ "u" ++ ">") =
      (([("SEEDS STOCK", [("apple", "5"), ("apple", "3")]),
          ("B", [("apple", "2")])] : Stock).flatMap (fun e =>
        if alwaysNotify e.1 ∨ lookupD [] e.1 ≠ e.2 then e.2.map Prod.fst
        else [])).count "apple" :=
  mentions_not_deduplicated [("u", ["apple"])] []
    [("SEEDS STOCK", [("apple", "5"), ("apple", "3")]), ("B", [("apple", "2")])]
    "u" "apple" ["apple"] (by decide) (by decide) (by decide) (by decide)

/-- Claim C4: with `max_attempts=3` and `delay=4`, the retry loop makes at
most 3 attempts; if the first success is at attempt `k ≤ 3` it returns that
success after exactly `k` attempts with `k - 1` four-second waits and no
further attempts; and if all 3 attempts fail it returns the third attempt's
error after exactly 3 attempts, with waits after the first and second
attempt only. -/
theorem scrape_with_retries_spec (outc : Nat → Option Stock × Option String) :
    (scrape_with_retries outc 3 4).attemptsMade ≤ 3 ∧
    (∀ k, 1 ≤ k → k ≤ 3 → (∀ j, 1 ≤ j → j < k → (outc j).1 = none) →
      ∀ s, (outc k).1 = some s →
        scrape_with_retries outc 3 4 =
          { stock := some s, error := none, attemptsMade := k,
            sleeps := List.replicate (k - 1) 4 }) ∧
    ((∀ j, 1 ≤ j → j ≤ 3 → (outc j).1 = none) →
      scrape_with_retries outc 3 4 =
        { stock := none, error := (outc 3).2, attemptsMade := 3,
          sleeps := [4, 4] }) := by
  rcases h1 : (outc 1).1 with _ | s1
  · rcases h2 : (outc 2).1 with _ | s2
    · rcases h3 : (outc 3).1 with _ | s3
      · have hres : scrape_with_retries outc 3 4 =
            { stock := none, error := (outc 3).2, attemptsMade := 3,
              sleeps := [4, 4] } := by
          simp [scrape_with_retries, retryGo, h1, h2, h3]
        refine ⟨by simp only [hres]; norm_num, ?_, fun _ => hres⟩
        intro k hk1 hk3 _ s hs
        interval_cases k
        · rw [h1] at hs; cases hs
        · rw [h2] at hs; cases hs
        · rw [h3] at hs; cases hs
      · have hres : scrape_with_retries outc 3 4 =
            { stock := some s3, error := none, attemptsMade := 3,
              sleeps := [4, 4] } := by
          simp [scrape_with_retries, retryGo, h1, h2, h3]
        refine ⟨by simp only [hres]; norm_num, ?_, ?_⟩
        · intro k hk1 hk3 hprev s hs
          interval_cases k
          · rw [h1] at hs; cases hs
          · rw [h2] at hs; cases hs
          · rw [h3] at hs
            injection hs with hss
            subst hss
            simpa using hres
        · intro hall
          have := hall 3 (by omega) (by omega)
          rw [h3] at this; cases this
    · have hres : scrape_with_retries outc 3 4 =
          { stock := some s2, error := none, attemptsMade := 2,
            sleeps := [4] } := by
        simp [scrape_with_retries, retryGo, h1, h2]
      refine ⟨by simp only [hres]; norm_num, ?_, ?_⟩
      · intro k hk1 hk3 hprev s hs
        interval_cases k
        · rw [h1] at hs; cases hs
        · rw [h2] at hs
          injection hs with hss
          subst hss
          simpa using hres
        · have := hprev 2 (by omega) (by omega)
          rw [h2] at this; cases this
      · intro hall
        have := hall 2 (by omega) (by omega)
        rw [h2] at this; cases this
  · have hres : scrape_with_retries outc 3 4 =
        { stock := some s1, error := none, attemptsMade := 1,
          sleeps := [] } := by
      simp [scrape_with_retries, retryGo, h1]
    refine ⟨by simp only [hres]; norm_num, ?_, ?_⟩
    · intro k hk1 hk3 hprev s hs
      interval_cases k
      · rw [h1] at hs
        injection hs with hss
        subst hss
        simpa using hres
      · have := hprev 1 (by omega) (by omega)
        rw [h1] at this; cases this
      · have := hprev 1 (by omega) (by omega)
        rw [h1] at this; cases this
    · intro hall
      have := hall 1 (by omega) (by omega)
      rw [h1] at this; cases this

theorem scrape_with_retries_spec_witness :
    scrape_with_retries
        (fun n => if n = 3 then (some [("C", [("a", "1")])], none)
          else (none, some "boom")) 3 4 =
      { stock := some [("C", [("a", "1")])], error := none, attemptsMade := 3,
        sleeps := List.replicate (3 - 1) 4 } := by
  have h := (scrape_with_retries_spec
    (fun n => if n = 3 then (some [("C", [("a", "1")])], none)
      else (none, some "boom"))).2.1 3 (by omega) (by omega)
    (by intro j hj1 hj3; interval_cases j <;> decide)
    [("C", [("a", "1")])] (by decide)
  exact h

/-! ## Fuzzy-match lemmas -/

theorem foldl_pickBetter (word : String) :
    ∀ (cs : List String) (c : String),
      cs.foldl (pickBetter word) c ∈ c :: cs ∧
      simScore c word ≤ simScore (cs.foldl (pickBetter word) c) word ∧
      ∀ x ∈ cs, simScore x word ≤ simScore (cs.foldl (pickBetter word) c) word := by
  intro cs
  induction cs with
  | nil =>
    intro c
    exact ⟨List.mem_cons_self c [], le_refl _, fun x hx => absurd hx (List.not_mem_nil x)⟩
  | cons y r ih =>
    intro c
    have hstep : simScore c word ≤ simScore (pickBetter word c y) word ∧
        simScore y word ≤ simScore (pickBetter word c y) word ∧
        (pickBetter word c y = c ∨ pickBetter word c y = y) := by
      unfold pickBetter
      by_cases hcond : simScore c word < simScore y word ∨
          (simScore c word = simScore y word ∧ c.data < y.data)
      · rw [if_pos hcond]
        refine ⟨?_, le_refl _, Or.inr rfl⟩
        rcases hcond with h | ⟨h, _⟩
        · exact le_of_lt h
        · exact le_of_eq h
      · rw [if_neg hcond]
        push_neg at hcond
        exact ⟨le_refl _, hcond.1, Or.inl rfl⟩
    obtain ⟨h1, h2, h3⟩ := ih (pickBetter word c y)
    have hfold : (y :: r).foldl (pickBetter word) c =
        r.foldl (pickBetter word) (pickBetter word c y) := rfl
    refine ⟨?_, ?_, ?_⟩
    · rw [hfold]
      rcases List.mem_cons.mp h1 with hh | hh
      · rcases hstep.2.2 with hc | hy
        · rw [hh, hc]; exact List.mem_cons_self _ _
        · rw [hh, hy]; exact List.mem_cons_of_mem _ (List.mem_cons_self _ _)
      · exact List.mem_cons_of_mem _ (List.mem_cons_of_mem _ hh)
    · rw [hfold]; exact le_trans hstep.1 h2
    · intro x hx
      rw [hfold]
      rcases List.mem_cons.mp hx with rfl | hxr
      · exact le_trans hstep.2.1 h2
      · exact h3 x hxr

theorem bestCandidate_spec (word : String) (poss : List String) (cutoff : ℚ) :
    (∀ m, bestCandidate word poss cutoff = some m →
      m ∈ poss ∧ cutoff ≤ simScore m word ∧
      ∀ x ∈ poss, simScore x word ≤ simScore m word) ∧
    (bestCandidate word poss cutoff = none →
      ∀ x ∈ poss, simScore x word < cutoff) := by
  cases hq : poss.filter (fun x => decide (cutoff ≤ simScore x word)) with
  | nil =>
    constructor
    · intro m hm
      rw [bestCandidate, hq] at hm
      cases hm
    · intro _ x hx
      by_contra hlt
      push_neg at hlt
      have hmem : x ∈ poss.filter (fun x => decide (cutoff ≤ simScore x word)) :=
        List.mem_filter.mpr ⟨hx, by simpa using hlt⟩
      rw [hq] at hmem
      cases hmem
  | cons c cs =>
    constructor
    · intro m hm
      rw [bestCandidate, hq] at hm
      injection hm with hmv
      obtain ⟨h1, _, h3⟩ := foldl_pickBetter word cs c
      rw [← hq] at h1
      have hmp : m ∈ poss.filter (fun x => decide (cutoff ≤ simScore x word)) := by
        rw [hmv] at h1; exact h1
      have hmposs := (List.mem_filter.mp hmp).1
      have hmcut : cutoff ≤ simScore m word := by
        have := (List.mem_filter.mp hmp).2
        simpa using this
      refine ⟨hmposs, hmcut, ?_⟩
      intro x hx
      by_cases hxc : cutoff ≤ simScore x word
      · have hxq : x ∈ poss.filter (fun x => decide (cutoff ≤ simScore x word)) :=
          List.mem_filter.mpr ⟨hx, by simpa using hxc⟩
        rw [hq] at hxq
        rcases List.mem_cons.mp hxq with rfl | hxcs
        · have hle := (foldl_pickBetter word cs x).2.1
          rw [hmv] at hle; exact hle
        · have hle := (foldl_pickBetter word cs c).2.2 x hxcs
          rw [hmv] at hle; exact hle
      · push_neg at hxc
        exact le_trans (le_of_lt hxc) hmcut
    · intro hm
      rw [bestCandidate, hq] at hm
      cases hm

/-- Claim C5: at subscribe time with a nonempty known-item set, the fuzzy
step substitutes the known item with the greatest similarity ratio to the
(stripped) input exactly when some known item scores at least 0.6; when no
known item reaches the threshold, the literal input is kept and the
"no close match" flag is raised. -/
theorem subscribe_fuzzy_match (known : List String) (want : String)
    (hk : known ≠ []) :
    ((∃ x ∈ known, mkRat 3 5 ≤ simScore x want) →
      (subscribeItem known want).2 = false ∧
      (subscribeItem known want).1 ∈ known ∧
      mkRat 3 5 ≤ simScore (subscribeItem known want).1 want ∧
      ∀ x ∈ known, simScore x want ≤ simScore (subscribeItem known want).1 want) ∧
    ((∀ x ∈ known, simScore x want < mkRat 3 5) →
      subscribeItem known want = (want, true)) := by
  cases hbc : bestCandidate want known (mkRat 3 5) with
  | none =>
    have hnone := (bestCandidate_spec want known (mkRat 3 5)).2 hbc
    have hval : subscribeItem known want = (want, true) := by
      simp [subscribeItem, hk, hbc]
    constructor
    · rintro ⟨x, hx, hge⟩
      exact absurd hge (not_le.mpr (hnone x hx))
    · intro _
      exact hval
  | some m =>
    have hspec := (bestCandidate_spec want known (mkRat 3 5)).1 m hbc
    have hval : subscribeItem known want = (m, false) := by
      simp [subscribeItem, hk, hbc]
    constructor
    · intro _
      rw [hval]
      exact ⟨rfl, hspec.1, hspec.2.1, hspec.2.2⟩
    · intro hall
      exact absurd hspec.2.1 (not_le.mpr (hall m hspec.1))

theorem subscribe_fuzzy_match_witness :
    ((subscribeItem ["abcd", "xy"] "abc").2 = false ∧
      (subscribeItem ["abcd", "xy"] "abc").1 ∈ ["abcd", "xy"] ∧
      mkRat 3 5 ≤ simScore (subscribeItem ["abcd", "xy"] "abc").1 "abc" ∧
      ∀ x ∈ ["abcd", "xy"],
        simScore x "abc" ≤ simScore (subscribeItem ["abcd", "xy"] "abc").1 "abc") ∧
    subscribeItem ["zzz"] "abc" = ("abc", true) := by
  constructor
  · exact (subscribe_fuzzy_match ["abcd", "xy"] "abc" (by decide)).1
      ⟨"abcd", by decide, by decide⟩
  · exact (subscribe_fuzzy_match ["zzz"] "abc" (by decide)).2
      (by intro x hx; fin_cases hx; decide)

/-- Claim C6 is false on the code: fuzzy resolution runs before the
already-subscribed check, so an input that is already present in the list
case-insensitively can resolve to a different known item and be appended.
With known items `["abcd"]`, subscription list `["abc"]` and input `"abc"`,
the input is present case-insensitively, yet the call appends `"abcd"` and
reports nothing as already subscribed. -/
theorem subscribe_idempotence_cex :
    (∃ i ∈ ["abc"], strLower i = strLower "abc") ∧
    (subStep ["abcd"] (["abc"], [], []) "abc").1 = ["abc", "abcd"] ∧
    (subStep ["abcd"] (["abc"], [], []) "abc").1 ≠ ["abc"] ∧
    (subStep ["abcd"] (["abc"], [], []) "abc").2.2 = [] := by
  decide

/-- Claim C6 amended: the idempotence check applies to the fuzzy-resolved
item — when the list already contains, case-insensitively, the item the
input resolves to (which is the literal input whenever the known set is
empty or no candidate reaches the cutoff), the list and the chosen
accumulator are unchanged and "already subscribed" is reported. -/
theorem subscribe_idempotent_resolved (known subs ch : List String)
    (ws : List Warn) (raw : String)
    (h1 : strTrim raw ≠ "")
    (h2 : ∃ i ∈ subs,
      strLower i = strLower (subscribeItem known (strTrim raw)).1) :
    (subStep known (subs, ch, ws) raw).1 = subs ∧
    (subStep known (subs, ch, ws) raw).2.1 = ch ∧
    Warn.alreadySubscribed (subscribeItem known (strTrim raw)).1 ∈
      (subStep known (subs, ch, ws) raw).2.2 := by
  have hany : (subs.any fun i =>
      decide (strLower i = strLower (subscribeItem known (strTrim raw)).1)) =
      true := by
    rcases h2 with ⟨i, hi, hlow⟩
    exact List.any_eq_true.mpr ⟨i, hi, by simpa using hlow⟩
  simp only [subStep, if_neg h1, hany]
  simp [List.mem_append]

theorem subscribe_idempotent_resolved_witness :
    (subStep [] (["AB"], [], []) "ab").1 = ["AB"] ∧
    (subStep [] (["AB"], [], []) "ab").2.1 = [] ∧
    Warn.alreadySubscribed (subscribeItem [] (strTrim "ab")).1 ∈
      (subStep [] (["AB"], [], []) "ab").2.2 :=
  subscribe_idempotent_resolved [] ["AB"] [] [] "ab" (by decide)
    ⟨"AB", by decide, by decide⟩

/-- Claim C9: when `bot.known_items` is empty, fuzzy matching is skipped —
the resolution step returns the stripped literal with no "no close match"
flag — and a not-yet-subscribed input is appended exactly as typed, with
the warning list unchanged. -/
theorem subscribe_empty_known_literal (subs ch : List String)
    (ws : List Warn) (raw : String)
    (h1 : strTrim raw ≠ "")
    (h2 : ∀ i ∈ subs, strLower i ≠ strLower (strTrim raw)) :
    subscribeItem [] (strTrim raw) = (strTrim raw, false) ∧
    subStep [] (subs, ch, ws) raw =
      (subs ++ [strTrim raw], ch ++ [strTrim raw], ws) := by
  have hsub : subscribeItem [] (strTrim raw) = (strTrim raw, false) := rfl
  refine ⟨hsub, ?_⟩
  have hany : (subs.any fun i =>
      decide (strLower i = strLower (subscribeItem [] (strTrim raw)).1)) =
      false := by
    rw [List.any_eq_false]
    intro i hi
    simpa [hsub] using h2 i hi
  simp only [subStep, if_neg h1, hany]
  simp [hsub]

theorem subscribe_empty_known_literal_witness :
    subscribeItem [] (strTrim " Foo ") = (strTrim " Foo ", false) ∧
    subStep [] ([], [], []) " Foo " =
      ([] ++ [strTrim " Foo "], [] ++ [strTrim " Foo "], []) :=
  subscribe_empty_known_literal [] [] [] " Foo " (by decide)
    (fun i hi => absurd hi (List.not_mem_nil i))

/-- An entry with no `img` tag or no `span` is skipped by the strict
(generic-pass) extraction with no effect. -/
theorem entryItemsStrict_skip (e : Entry)
    (he : e.img = none ∨ e.spanText = none) :
    ∀ es1 es2 : List Entry,
      entryItemsStrict (es1 ++ e :: es2) = entryItemsStrict (es1 ++ es2) := by
  have hhead : ∀ t, entryItemsStrict (e :: t) = entryItemsStrict t := by
    intro t
    obtain ⟨I, S⟩ := e
    rcases he with h | h <;> simp only at h <;> subst h
    · rcases S with _ | q <;> rfl
    · rcases I with _ | alt <;> rfl
  intro es1
  induction es1 with
  | nil => intro es2; exact hhead es2
  | cons a r ih =>
    intro es2
    obtain ⟨I, S⟩ := a
    rcases I with _ | alt
    · rcases S with _ | q <;> simpa [entryItemsStrict] using ih es2
    · rcases S with _ | q
      · simpa [entryItemsStrict] using ih es2
      · rcases alt with _ | a2
        · simp [entryItemsStrict]
        · simp [entryItemsStrict, ih es2]

/-- When no entry has an `img` tag without `alt` together with a `span`,
the strict extraction succeeds and agrees with the `get`-style one. -/
theorem entryItemsStrict_ok :
    ∀ es : List Entry,
      (∀ e ∈ es, ¬(e.img = some none ∧ e.spanText.isSome = true)) →
      entryItemsStrict es = Except.ok (entryItemsGet es) := by
  intro es
  induction es with
  | nil => intro _; rfl
  | cons e r ih =>
    intro h
    have hr := ih (fun x hx => h x (List.mem_cons_of_mem _ hx))
    have hhead := h e (List.mem_cons_self _ _)
    obtain ⟨I, S⟩ := e
    rcases I with _ | alt
    · rcases S with _ | q <;>
        simpa [entryItemsStrict, entryItemsGet, List.filterMap_cons] using hr
    · rcases S with _ | q
      · simpa [entryItemsStrict, entryItemsGet, List.filterMap_cons] using hr
      · rcases alt with _ | a
        · simp at hhead
        · simp [entryItemsStrict, entryItemsGet, List.filterMap_cons, hr]

/-- When some entry has an `img` tag without `alt` together with a `span`,
the strict extraction raises `KeyError("alt")`. -/
theorem entryItemsStrict_err :
    ∀ es : List Entry,
      (∃ e ∈ es, e.img = some none ∧ e.spanText.isSome = true) →
      entryItemsStrict es = Except.error "\x27alt\x27" := by
  intro es
  induction es with
  | nil =>
    rintro ⟨x, hx, _⟩
    exact absurd hx (List.not_mem_nil x)
  | cons e r ih =>
    rintro ⟨x, hx, hoff⟩
    obtain ⟨I, S⟩ := e
    rcases List.mem_cons.mp hx with rfl | hxr
    · obtain ⟨h1, h2⟩ := hoff
      simp only at h1
      subst h1
      rcases S with _ | q
      · simp at h2
      · rfl
    · have hr := ih ⟨x, hxr, hoff⟩
      rcases I with _ | alt
      · rcases S with _ | q <;> simpa [entryItemsStrict] using hr
      · rcases S with _ | q
        · simpa [entryItemsStrict] using hr
        · rcases alt with _ | a
          · rfl
          · simp [entryItemsStrict, hr]

/-- Claim C8 is false on the code: the generic pass reads `img["alt"]`, so
a `li` carrying an `img` without an `alt` attribute together with a `span`
is not silently skipped — it raises `KeyError`, converted by the
surrounding `except` into a document-wide parse error that discards the
whole snapshot.  And the seeds pass, which reads `img.get("alt", "")`,
yields an item from such an entry (with empty name) even though the entry
carries no image-alt-text field. -/
theorem parser_entry_policy_cex :
    scrape_parse
        ⟨none, [("GEAR STOCK", some [⟨some none, some "x1"⟩])], none⟩ =
      (none, some "Parse error: \x27alt\x27") ∧
    scrape_parse ⟨some (some [⟨some none, some "x1"⟩]), [], none⟩ =
      (some [("SEEDS STOCK", [("", "x1")])], none) :=
  ⟨by decide, by decide⟩

/-- Claim C8 amended: an entry yields an item exactly when it carries both
an `img` element and a `span` element, and entries missing either element
are silently skipped with no error in every pass; but when an `img` element
lacks its `alt` attribute, the seeds/eggs passes yield an item whose name
defaults to the empty string, while in the generic pass such an entry
together with a `span` raises a `KeyError` that aborts the whole parse
with the document-wide error `Parse error: 'alt'`.  A document in which
zero categories are found still yields the empty mapping with no error. -/
theorem parser_entry_policy :
    (∀ es : List Entry,
      (entryItemsGet es).length =
        (es.filter (fun e => e.img.isSome && e.spanText.isSome)).length) ∧
    (∀ e : Entry, e.img = none ∨ e.spanText = none →
      ∀ es1 es2 : List Entry,
        entryItemsGet (es1 ++ e :: es2) = entryItemsGet (es1 ++ es2) ∧
        entryItemsStrict (es1 ++ e :: es2) = entryItemsStrict (es1 ++ es2)) ∧
    (∀ es : List Entry,
      (∀ e ∈ es, ¬(e.img = some none ∧ e.spanText.isSome = true)) →
      entryItemsStrict es = Except.ok (entryItemsGet es)) ∧
    (∀ es : List Entry,
      (∃ e ∈ es, e.img = some none ∧ e.spanText.isSome = true) →
      entryItemsStrict es = Except.error "\x27alt\x27") ∧
    (∀ (cat : String) (es : List Entry), cat ≠ "SEEDS STOCK" →
      entryItemsStrict es = Except.error "\x27alt\x27" →
      scrape_parse { seeds := none, generic := [(cat, some es)], eggs := none } =
        (none, some "Parse error: \x27alt\x27")) ∧
    scrape_parse { seeds := none, generic := [], eggs := none } =
      (some [], none) := by
  refine ⟨?_, ?_, entryItemsStrict_ok, entryItemsStrict_err, ?_, rfl⟩
  · intro es
    induction es with
    | nil => rfl
    | cons e r ih =>
      obtain ⟨I, S⟩ := e
      rcases I with _ | alt <;> rcases S with _ | q <;>
        simp [entryItemsGet, List.filterMap_cons, List.filter_cons] <;>
        simpa [entryItemsGet] using ih
  · intro e he es1 es2
    refine ⟨?_, entryItemsStrict_skip e he es1 es2⟩
    have hfe : (fun e : Entry =>
        match e.img, e.spanText with
        | some alt, some q => some (strTrim (alt.getD ""), q)
        | _, _ => (none : Option Item)) e = none := by
      obtain ⟨I, S⟩ := e
      rcases he with h | h <;> simp only at h <;> subst h
      · rfl
      · rcases I with _ | alt <;> rfl
    simp only [entryItemsGet, List.filterMap_append, List.filterMap_cons, hfe]
  · intro cat es hcat herr
    simp [scrape_parse, genericPass, hcat, herr]

theorem parser_entry_policy_witness :
    (entryItemsGet [{ img := none, spanText := some "x5" }] = entryItemsGet [] ∧
      entryItemsStrict [{ img := none, spanText := some "x5" }] =
        entryItemsStrict []) ∧
    entryItemsStrict [{ img := some (some "Carrot"), spanText := some "x5" }] =
      Except.ok
        (entryItemsGet [{ img := some (some "Carrot"), spanText := some "x5" }]) ∧
    entryItemsStrict [{ img := some none, spanText := some "x1" }] =
      Except.error "\x27alt\x27" ∧
    scrape_parse
        ⟨none, [("GEAR STOCK", some [⟨some none, some "x1"⟩])], none⟩ =
      (none, some "Parse error: \x27alt\x27") ∧
    scrape_parse { seeds := none, generic := [], eggs := none } =
      (some [], none) := by
  refine ⟨parser_entry_policy.2.1 { img := none, spanText := some "x5" }
    (Or.inl rfl) [] [], ?_, ?_, ?_, parser_entry_policy.2.2.2.2.2⟩
  · exact parser_entry_policy.2.2.1
      [{ img := some (some "Carrot"), spanText := some "x5" }] (by decide)
  · exact parser_entry_policy.2.2.2.1
      [{ img := some none, spanText := some "x1" }]
      ⟨{ img := some none, spanText := some "x1" }, by decide, by decide⟩
  · exact parser_entry_policy.2.2.2.2.1 "GEAR STOCK"
      [{ img := some none, spanText := some "x1" }] (by decide)
      (parser_entry_policy.2.2.2.1
        [{ img := some none, spanText := some "x1" }]
        ⟨{ img := some none, spanText := some "x1" }, by decide, by decide⟩)

end Garden
